import Mathlib

/-!
Verification of the shoptracker shop-management application.

This file shallowly embeds the data model and the aggregation/reporting
operations of the repository (src/database.py and src/app.py) as executable
Lean definitions over lists of rows, and proves or refutes the frozen claims
about them.

Modelling conventions:
* SQL REAL amounts (prices, expense amounts, profits) are modelled as `ℚ`.
* Calendar dates (the value of SQLite `DATE(...)`) are modelled as `ℤ` day
  numbers; the optional date-range parameters `(start_date, end_date)` become
  a `DateFilter` with two optional bounds.
* Tables are lists of row structures; SQL `LEFT JOIN`, `WHERE`, `GROUP BY`
  are embedded as explicit list operations that follow the queries in
  src/database.py literally, including the placement of the date filter in a
  `WHERE` clause after the `LEFT JOIN`.
* Python `dict` results are association lists looked up by key.
* Operations that commit-or-roll-back are `Except String`-valued state
  transformers: `Except.error` corresponds to a raised exception with the
  store left unchanged.
-/

namespace ShopTracker

/-- A row of the `products` table (src/database.py, init_db).
`quantity` is an SQLite INTEGER without a non-negativity CHECK, so it is
modelled as `ℤ`. -/
structure Product where
  id : ℕ
  name : String
  buyingPrice : ℚ
  sellingPrice : ℚ
  quantity : ℤ
  deriving Repr, DecidableEq

/-- A row of the `sales` table. `saleDate` is the calendar date
`DATE(sale_date)` as a day number. -/
structure Sale where
  productId : ℕ
  quantitySold : ℤ
  totalPrice : ℚ
  profit : ℚ
  saleDate : ℤ
  deriving Repr, DecidableEq

/-- A row of the `expense_categories` table. -/
structure ExpenseCategory where
  id : ℕ
  name : String
  categoryType : String
  deriving Repr, DecidableEq

/-- A row of the `expenses` table. `expenseDate` is the calendar date
`DATE(expense_date)` as a day number. -/
structure Expense where
  categoryId : ℕ
  amount : ℚ
  expenseDate : ℤ
  deriving Repr, DecidableEq

/-- A row of the `users` table (password omitted: irrelevant to the claims). -/
structure UserRow where
  id : ℕ
  username : String
  role : String
  deriving Repr, DecidableEq

/-- The optional `(start_date, end_date)` pair threaded through the expense
and sales queries in src/database.py. -/
structure DateFilter where
  startDate : Option ℤ
  endDate : Option ℤ
  deriving Repr, DecidableEq

/-- Whether the query builder appends any WHERE clause: it does exactly when
`start_date` or `end_date` is given. -/
def DateFilter.isActive (f : DateFilter) : Bool :=
  f.startDate.isSome || f.endDate.isSome

/-- The date predicate of the WHERE clause: `BETWEEN s AND e` when both bounds
are given, `>= s` with only a start, `<= e` with only an end.  With neither
bound this is vacuously true (and `isActive` is false, so no WHERE is added at
all). -/
def DateFilter.inRange (f : DateFilter) (d : ℤ) : Bool :=
  (match f.startDate with
   | some s => decide (s ≤ d)
   | none => true) &&
  (match f.endDate with
   | some e => decide (d ≤ e)
   | none => true)

/-- The rows produced by `FROM expense_categories ec LEFT JOIN expenses e ON
ec.id = e.category_id` for one category `c`: one row per matching expense, or
a single row with a NULL expense side when none matches. -/
def joinRow (exps : List Expense) (c : ExpenseCategory) :
    List (ExpenseCategory × Option Expense) :=
  if (exps.filter (fun e => e.categoryId == c.id)).isEmpty then [(c, none)]
  else (exps.filter (fun e => e.categoryId == c.id)).map (fun e => (c, some e))

/-- All rows of the LEFT JOIN used by `get_expense_summary` and
`get_expenses_by_category`. -/
def joinRows (cats : List ExpenseCategory) (exps : List Expense) :
    List (ExpenseCategory × Option Expense) :=
  cats.flatMap (joinRow exps)

/-- The WHERE clause `DATE(e.expense_date) ...` evaluated on a join row: a row
whose expense side is NULL fails every comparison (SQL three-valued logic), so
it is dropped whenever a date filter is active. -/
def rowKeep (f : DateFilter) (r : ExpenseCategory × Option Expense) : Bool :=
  match r.2 with
  | some e => f.inRange e.expenseDate
  | none => false

/-- The join rows surviving the optional WHERE clause: the filter is applied
only when a date bound was supplied (src/database.py builds the WHERE clause
conditionally). -/
def filteredJoin (cats : List ExpenseCategory) (exps : List Expense)
    (f : DateFilter) : List (ExpenseCategory × Option Expense) :=
  if f.isActive then (joinRows cats exps).filter (rowKeep f)
  else joinRows cats exps

/-- `COALESCE(SUM(e.amount), 0)` contribution of a single join row. -/
def rowAmount (r : ExpenseCategory × Option Expense) : ℚ :=
  match r.2 with
  | some e => e.amount
  | none => 0

/-- `Database.get_expense_summary`: the LEFT JOIN with optional date WHERE,
grouped by `ec.category_type`, returned as the dict
`{category_type: total_amount}` (an association list here). -/
def expenseSummary (cats : List ExpenseCategory) (exps : List Expense)
    (f : DateFilter) : List (String × ℚ) :=
  let rows := filteredJoin cats exps f
  ((rows.map (fun r => r.1.categoryType)).dedup).map
    (fun t => (t, ((rows.filter (fun r => r.1.categoryType == t)).map rowAmount).sum))

/-- Python `dict.get(key, 0)` on the summary dict. -/
def summaryGet (s : List (String × ℚ)) (t : String) : ℚ :=
  match s.find? (fun p => p.1 == t) with
  | some p => p.2
  | none => 0

/-- The optional WHERE clause on a plain (un-joined) table: the filter is
appended only when a date bound was supplied. -/
def dateFiltered {α : Type} (f : DateFilter) (dateOf : α → ℤ) (l : List α) :
    List α :=
  if f.isActive then l.filter (fun a => f.inRange (dateOf a)) else l

/-- `Database.get_total_expenses`: `SELECT COALESCE(SUM(amount), 0) FROM
expenses` with the optional date WHERE (no join). -/
def getTotalExpenses (exps : List Expense) (f : DateFilter) : ℚ :=
  ((dateFiltered f (fun e => e.expenseDate) exps).map (fun e => e.amount)).sum

/-- The result record of `Database.get_profit_analysis`. -/
structure ProfitAnalysis where
  totalRevenue : ℚ
  totalGrossProfit : ℚ
  totalCogs : ℚ
  totalOperatingExpenses : ℚ
  totalExpenses : ℚ
  netProfit : ℚ
  grossProfitMargin : ℚ
  netProfitMargin : ℚ
  deriving Repr, DecidableEq

/-- `Database.get_profit_analysis`: sales revenue and gross profit over the
(optionally date-filtered) sales table, the expense summary by category type
over the same range, then
`total_expenses = cogs + operating`, `net_profit = gross - operating`, and
margins guarded by `if total_revenue > 0`. -/
def getProfitAnalysis (cats : List ExpenseCategory) (exps : List Expense)
    (sales : List Sale) (f : DateFilter) : ProfitAnalysis :=
  let filteredSales := dateFiltered f (fun s => s.saleDate) sales
  let totalRevenue := (filteredSales.map (fun s => s.totalPrice)).sum
  let totalGrossProfit := (filteredSales.map (fun s => s.profit)).sum
  let summary := expenseSummary cats exps f
  let totalCogs := summaryGet summary "cogs"
  let totalOperatingExpenses := summaryGet summary "operating"
  { totalRevenue := totalRevenue
    totalGrossProfit := totalGrossProfit
    totalCogs := totalCogs
    totalOperatingExpenses := totalOperatingExpenses
    totalExpenses := totalCogs + totalOperatingExpenses
    netProfit := totalGrossProfit - totalOperatingExpenses
    grossProfitMargin :=
      if 0 < totalRevenue then totalGrossProfit / totalRevenue * 100 else 0
    netProfitMargin :=
      if 0 < totalRevenue then
        (totalGrossProfit - totalOperatingExpenses) / totalRevenue * 100
      else 0 }

/-- Whether the (first, hence with distinct ids the unique) category row that
an expense's foreign key resolves to satisfies `p`; `false` when the category
does not exist. -/
def catMatch (cats : List ExpenseCategory) (p : ExpenseCategory → Bool)
    (e : Expense) : Bool :=
  match cats.find? (fun c => c.id == e.categoryId) with
  | some c => p c
  | none => false

/-- Whether the category row that an expense's foreign key resolves to has
category type `t`. -/
def typeIs (cats : List ExpenseCategory) (e : Expense) (t : String) : Bool :=
  catMatch cats (fun c => c.categoryType == t) e

/-- A combined predicate on join rows: `p` on the category side, `q` on a
present expense side, the constant `b` on a NULL expense side. -/
def rowPred (p : ExpenseCategory → Bool) (q : Expense → Bool) (b : Bool)
    (r : ExpenseCategory × Option Expense) : Bool :=
  p r.1 && (match r.2 with | some e => q e | none => b)

theorem sum_map_filter_split {α : Type} (l : List α) (p q : α → Bool) (f : α → ℚ) :
    ((l.filter p).map f).sum
      = ((l.filter (fun a => p a && q a)).map f).sum
        + ((l.filter (fun a => p a && !q a)).map f).sum := by
  induction l with
  | nil => simp
  | cons a l ih =>
    by_cases hp : p a = true <;> by_cases hq : q a = true <;>
      simp [List.filter_cons, hp, hq, ih] <;> ring

theorem filter_and_of_imp {α : Type} (l : List α) (p q : α → Bool)
    (h : ∀ a ∈ l, p a = true → q a = true) :
    l.filter (fun a => p a && q a) = l.filter p := by
  apply List.filter_congr
  intro a ha
  by_cases hp : p a = true
  · simp [hp, h a ha hp]
  · simp at hp
    simp [hp]

/-- Sum of amounts of the join rows of one category surviving `rowPred`. -/
theorem sum_joinRow (exps : List Expense) (c : ExpenseCategory)
    (p : ExpenseCategory → Bool) (q : Expense → Bool) (b : Bool) :
    (((joinRow exps c).filter (rowPred p q b)).map rowAmount).sum
      = if p c then
          (((exps.filter (fun e => e.categoryId == c.id)).filter q).map
            (fun e => e.amount)).sum
        else 0 := by
  unfold joinRow
  by_cases hemp : (exps.filter (fun e => e.categoryId == c.id)).isEmpty = true
  · have he : exps.filter (fun e => e.categoryId == c.id) = [] := by simpa using hemp
    rw [he]
    by_cases hp : p c = true <;> by_cases hb : b = true <;>
      simp [rowPred, rowAmount, hp, hb]
  · have he : (exps.filter (fun e => e.categoryId == c.id)).isEmpty = false := by
      simpa using hemp
    rw [he]
    simp only [Bool.false_eq_true, if_false, List.filter_map]
    by_cases hp : p c = true
    · have : (rowPred p q b ∘ fun e => (c, some e)) = q := by
        funext e; simp [rowPred, Function.comp, hp]
      rw [this, hp, if_pos rfl, List.map_map]
      rfl
    · have : (rowPred p q b ∘ fun e => (c, some e)) = fun _ => false := by
        funext e; simp at hp; simp [rowPred, Function.comp, hp]
      rw [this, if_neg hp]
      simp

/-- The join-row sum decomposes as a sum over categories. -/
theorem sum_joinRows (cats : List ExpenseCategory) (exps : List Expense)
    (p : ExpenseCategory → Bool) (q : Expense → Bool) (b : Bool) :
    (((joinRows cats exps).filter (rowPred p q b)).map rowAmount).sum
      = (cats.map (fun c =>
          if p c then
            (((exps.filter (fun e => e.categoryId == c.id)).filter q).map
              (fun e => e.amount)).sum
          else 0)).sum := by
  induction cats with
  | nil => simp [joinRows]
  | cons c cs ih =>
    have hsplit : joinRows (c :: cs) exps = joinRow exps c ++ joinRows cs exps := rfl
    rw [hsplit, List.filter_append, List.map_append, List.sum_append, sum_joinRow,
      ih, List.map_cons, List.sum_cons]

/-- Double-counting: with distinct category ids, summing per category over the
expenses joined to it equals summing over the expenses whose resolved category
matches. -/
theorem sum_over_cats (cats : List ExpenseCategory) (exps : List Expense)
    (p : ExpenseCategory → Bool) (q : Expense → Bool)
    (h : (cats.map (fun c => c.id)).Nodup) :
    (cats.map (fun c =>
        if p c then
          (((exps.filter (fun e => e.categoryId == c.id)).filter q).map
            (fun e => e.amount)).sum
        else 0)).sum
      = ((exps.filter (fun e => q e && catMatch cats p e)).map
          (fun e => e.amount)).sum := by
  induction cats with
  | nil => simp [catMatch]
  | cons c cs ih =>
    simp only [List.map_cons, List.nodup_cons, List.mem_map] at h
    obtain ⟨hc, hcs⟩ := h
    simp only [List.map_cons, List.sum_cons]
    rw [ih hcs]
    have hsplit := sum_map_filter_split exps
      (fun e => q e && catMatch (c :: cs) p e)
      (fun e => e.categoryId == c.id) (fun e => e.amount)
    rw [hsplit]
    have hhead : ∀ e : Expense, e.categoryId = c.id → catMatch (c :: cs) p e = p c := by
      intro e he
      simp [catMatch, List.find?_cons, he]
    have htail : ∀ e : Expense, ¬(e.categoryId = c.id) →
        catMatch (c :: cs) p e = catMatch cs p e := by
      intro e he
      have hid : (c.id == e.categoryId) = false := by
        simp only [beq_eq_false_iff_ne, ne_eq]
        intro hcontra
        exact he hcontra.symm
      simp [catMatch, List.find?_cons, hid]
    have hnone : ∀ e : Expense, e.categoryId = c.id → catMatch cs p e = false := by
      intro e he
      have : cs.find? (fun cc => cc.id == e.categoryId) = none := by
        rw [List.find?_eq_none]
        intro cc hcc
        simp only [beq_iff_eq]
        intro hid
        exact hc ⟨cc, hcc, by rw [hid, he]⟩
      simp [catMatch, this]
    have h1 : exps.filter
        (fun e => (q e && catMatch (c :: cs) p e) && (e.categoryId == c.id))
        = if p c then (exps.filter (fun e => e.categoryId == c.id)).filter q
          else [] := by
      by_cases hp : p c = true
      · rw [if_pos hp, List.filter_filter]
        apply List.filter_congr
        intro e _
        by_cases he : (e.categoryId == c.id) = true
        · have he' : e.categoryId = c.id := by simpa using he
          simp [he, hhead e he', hp]
        · have he0 : (e.categoryId == c.id) = false := by simpa using he
          simp [he0]
      · rw [if_neg hp]
        simp only [Bool.not_eq_true] at hp
        rw [List.filter_eq_nil_iff]
        intro e _
        by_cases he : (e.categoryId == c.id) = true
        · have he' : e.categoryId = c.id := by simpa using he
          simp [he, hhead e he', hp]
        · have he0 : (e.categoryId == c.id) = false := by simpa using he
          simp [he0]
    have h2 : exps.filter
        (fun e => (q e && catMatch (c :: cs) p e) && !(e.categoryId == c.id))
        = exps.filter (fun e => q e && catMatch cs p e) := by
      apply List.filter_congr
      intro e _
      by_cases he : (e.categoryId == c.id) = true
      · have he' : e.categoryId = c.id := by simpa using he
        simp [he, hnone e he']
      · have he0 : (e.categoryId == c.id) = false := by simpa using he
        have he' : ¬(e.categoryId = c.id) := by simpa using he
        simp [he0, htail e he']
    rw [h1, h2]
    by_cases hp : p c = true <;> simp [hp]

/-- Looking up a key in the association list built by mapping a value function
over a duplicate-free key list. -/
theorem find?_map_key (l : List String) (v : String → ℚ) (t : String)
    (hnd : l.Nodup) (ht : t ∈ l) :
    (l.map (fun x => (x, v x))).find? (fun p => p.1 == t) = some (t, v t) := by
  induction l with
  | nil => cases ht
  | cons a l ih =>
    rw [List.nodup_cons] at hnd
    by_cases hat : a = t
    · subst hat
      simp [List.find?_cons]
    · have htl : t ∈ l := by
        rcases List.mem_cons.mp ht with h | h
        · exact absurd h.symm hat
        · exact h
      have hne : (a == t) = false := by simpa using hat
      simp only [List.map_cons, List.find?_cons, hne]
      exact ih hnd.2 htl

/-- When neither date bound is supplied, the date predicate is vacuous. -/
theorem inRange_of_inactive (f : DateFilter) (h : f.isActive = false) (d : ℤ) :
    f.inRange d = true := by
  cases hs : f.startDate with
  | some s => simp [DateFilter.isActive, hs] at h
  | none =>
    cases he : f.endDate with
    | some e => simp [DateFilter.isActive, hs, he] at h
    | none => simp [DateFilter.inRange, hs, he]

/-- The amount summed over the join rows of category type `t` equals the
amount summed over the in-range expenses resolving to a category of type `t`
(category ids distinct, as guaranteed by the PRIMARY KEY). -/
theorem sum_filteredJoin_type (cats : List ExpenseCategory) (exps : List Expense)
    (f : DateFilter) (t : String)
    (h : (cats.map (fun c => c.id)).Nodup) :
    (((filteredJoin cats exps f).filter
        (fun r => r.1.categoryType == t)).map rowAmount).sum
      = ((exps.filter
          (fun e => f.inRange e.expenseDate && typeIs cats e t)).map
          (fun e => e.amount)).sum := by
  unfold filteredJoin
  by_cases ha : f.isActive = true
  · rw [if_pos ha, List.filter_filter]
    have hpred : (fun r => (r.1.categoryType == t) && rowKeep f r)
        = rowPred (fun c => c.categoryType == t)
            (fun e => f.inRange e.expenseDate) false := by
      funext r
      rcases r with ⟨c, _ | e⟩ <;> simp [rowPred, rowKeep]
    rw [hpred, sum_joinRows, sum_over_cats cats exps _ _ h]
    rfl
  · rw [if_neg ha]
    simp only [Bool.not_eq_true] at ha
    have hpred : ∀ r ∈ joinRows cats exps, (r.1.categoryType == t)
        = rowPred (fun c => c.categoryType == t) (fun _ => true) true r := by
      intro r _
      rcases r with ⟨c, _ | e⟩ <;> simp [rowPred]
    rw [List.filter_congr hpred, sum_joinRows, sum_over_cats cats exps _ _ h]
    apply congrArg
    apply congrArg
    apply List.filter_congr
    intro e _
    rw [inRange_of_inactive f ha]
    rfl

/-- `get_expense_summary(...).get(t, 0)` is the sum of the amounts of the
in-range expenses whose category has type `t`. -/
theorem summaryGet_expenseSummary (cats : List ExpenseCategory)
    (exps : List Expense) (f : DateFilter) (t : String)
    (h : (cats.map (fun c => c.id)).Nodup) :
    summaryGet (expenseSummary cats exps f) t
      = ((exps.filter
          (fun e => f.inRange e.expenseDate && typeIs cats e t)).map
          (fun e => e.amount)).sum := by
  rw [← sum_filteredJoin_type cats exps f t h]
  unfold expenseSummary summaryGet
  by_cases ht : t ∈ ((filteredJoin cats exps f).map (fun r => r.1.categoryType)).dedup
  · rw [find?_map_key _ _ t (List.nodup_dedup _) ht]
  · have hnone : (((filteredJoin cats exps f).map
        (fun r => r.1.categoryType)).dedup.map
          (fun t' => (t', (((filteredJoin cats exps f).filter
            (fun r => r.1.categoryType == t')).map rowAmount).sum))).find?
          (fun p => p.1 == t) = none := by
      rw [List.find?_eq_none]
      intro pr hpr
      rcases List.mem_map.mp hpr with ⟨x, hx, rfl⟩
      simp only [beq_iff_eq]
      intro hxt
      exact ht (hxt ▸ hx)
    rw [hnone]
    have hempty : (filteredJoin cats exps f).filter
        (fun r => r.1.categoryType == t) = [] := by
      rw [List.filter_eq_nil_iff]
      intro r hr
      simp only [beq_iff_eq]
      intro hrt
      exact ht (List.mem_dedup.mpr (List.mem_map.mpr ⟨r, hr, hrt⟩))
    rw [hempty]
    simp

/-- The conditional WHERE clause is equivalent to always filtering, because
the date predicate is vacuous when no bound is supplied. -/
theorem dateFiltered_eq_filter {α : Type} (f : DateFilter) (dateOf : α → ℤ)
    (l : List α) :
    dateFiltered f dateOf l = l.filter (fun a => f.inRange (dateOf a)) := by
  unfold dateFiltered
  by_cases ha : f.isActive = true
  · rw [if_pos ha]
  · simp only [Bool.not_eq_true] at ha
    rw [if_neg (by simp [ha])]
    rw [List.filter_eq_self.mpr]
    intro a _
    exact inRange_of_inactive f ha (dateOf a)

/-- Rows of a table whose mapped ids are duplicate-free are determined by
their id. -/
theorem nodup_id_inj (cats : List ExpenseCategory)
    (h : (cats.map (fun c => c.id)).Nodup) (a b : ExpenseCategory)
    (ha : a ∈ cats) (hb : b ∈ cats) (hid : a.id = b.id) : a = b := by
  induction cats with
  | nil => cases ha
  | cons c cs ih =>
    rw [List.map_cons, List.nodup_cons] at h
    rcases List.mem_cons.mp ha with rfl | ha' <;>
      rcases List.mem_cons.mp hb with h2 | hb'
    · rw [h2]
    · exact absurd (List.mem_map.mpr ⟨b, hb', hid.symm⟩) h.1
    · exact absurd (List.mem_map.mpr ⟨a, ha', by rw [hid, h2]⟩) h.1
    · exact ih h.2 ha' hb'

/-- With duplicate-free ids, `find?` by id returns exactly the member with
that id. -/
theorem find?_id (cats : List ExpenseCategory)
    (h : (cats.map (fun c => c.id)).Nodup) (c : ExpenseCategory)
    (hc : c ∈ cats) (n : ℕ) (hn : c.id = n) :
    cats.find? (fun cc => cc.id == n) = some c := by
  have hs : (cats.find? (fun cc => cc.id == n)).isSome := by
    rw [List.find?_isSome]
    exact ⟨c, hc, by simp [hn]⟩
  rcases ho : cats.find? (fun cc => cc.id == n) with _ | c'
  · rw [ho] at hs
    simp at hs
  · have h1 := List.find?_some ho
    have h2 : c' ∈ cats := List.mem_of_find?_eq_some ho
    have h3 : c' = c := nodup_id_inj cats h c' c h2 hc (by
      rw [hn]
      simpa using h1)
    rw [ho, h3]

/-- C1: for every store state and optional date range, the profit analysis
satisfies `net_profit = total_gross_profit - total_operating_expenses`, where
`total_operating_expenses` sums exactly the in-range expenses of
'operating'-type categories; cogs-type expenses are counted in
`total_expenses = total_cogs + total_operating_expenses` but never subtracted
in `net_profit`. -/
theorem profit_analysis_net_profit_policy (cats : List ExpenseCategory)
    (exps : List Expense) (sales : List Sale) (f : DateFilter)
    (h : (cats.map (fun c => c.id)).Nodup) :
    (getProfitAnalysis cats exps sales f).netProfit
      = (getProfitAnalysis cats exps sales f).totalGrossProfit
        - (getProfitAnalysis cats exps sales f).totalOperatingExpenses
    ∧ (getProfitAnalysis cats exps sales f).totalOperatingExpenses
      = ((exps.filter (fun e => f.inRange e.expenseDate
          && typeIs cats e "operating")).map (fun e => e.amount)).sum
    ∧ (getProfitAnalysis cats exps sales f).totalCogs
      = ((exps.filter (fun e => f.inRange e.expenseDate
          && typeIs cats e "cogs")).map (fun e => e.amount)).sum
    ∧ (getProfitAnalysis cats exps sales f).totalExpenses
      = (getProfitAnalysis cats exps sales f).totalCogs
        + (getProfitAnalysis cats exps sales f).totalOperatingExpenses := by
  refine ⟨rfl, ?_, ?_, rfl⟩
  · exact summaryGet_expenseSummary cats exps f "operating" h
  · exact summaryGet_expenseSummary cats exps f "cogs" h

/-- Witness for C1: the spec's concrete scenario (a 2000 cogs expense and a
5000 operating expense against 10000 gross profit). -/
theorem profit_analysis_net_profit_policy_witness :
    (([⟨1, "Cost of Goods Sold", "cogs"⟩, ⟨2, "Rent", "operating"⟩]
        : List ExpenseCategory).map (fun c => c.id)).Nodup
    ∧ ((getProfitAnalysis
          [⟨1, "Cost of Goods Sold", "cogs"⟩, ⟨2, "Rent", "operating"⟩]
          [⟨1, 2000, 5⟩, ⟨2, 5000, 5⟩]
          [⟨1, 2, 50000, 10000, 5⟩] ⟨none, none⟩).netProfit
        = (getProfitAnalysis
          [⟨1, "Cost of Goods Sold", "cogs"⟩, ⟨2, "Rent", "operating"⟩]
          [⟨1, 2000, 5⟩, ⟨2, 5000, 5⟩]
          [⟨1, 2, 50000, 10000, 5⟩] ⟨none, none⟩).totalGrossProfit
          - (getProfitAnalysis
          [⟨1, "Cost of Goods Sold", "cogs"⟩, ⟨2, "Rent", "operating"⟩]
          [⟨1, 2000, 5⟩, ⟨2, 5000, 5⟩]
          [⟨1, 2, 50000, 10000, 5⟩] ⟨none, none⟩).totalOperatingExpenses) :=
  ⟨by decide,
   (profit_analysis_net_profit_policy
     [⟨1, "Cost of Goods Sold", "cogs"⟩, ⟨2, "Rent", "operating"⟩]
     [⟨1, 2000, 5⟩, ⟨2, 5000, 5⟩]
     [⟨1, 2, 50000, 10000, 5⟩] ⟨none, none⟩ (by decide)).1⟩

/-- C2: whenever no sale has a negative total price (sales written by the
application always have `total_price = selling_price × quantity > 0`), the
margins of the profit analysis are the ratio formulas for nonzero total
revenue and 0 for zero total revenue; the computation is a total function, so
no division-by-zero error can be raised. -/
theorem profit_analysis_margins (cats : List ExpenseCategory)
    (exps : List Expense) (sales : List Sale) (f : DateFilter)
    (h : ∀ s ∈ sales, 0 ≤ s.totalPrice) :
    ((getProfitAnalysis cats exps sales f).totalRevenue ≠ 0 →
      (getProfitAnalysis cats exps sales f).grossProfitMargin
        = (getProfitAnalysis cats exps sales f).totalGrossProfit
          / (getProfitAnalysis cats exps sales f).totalRevenue * 100
      ∧ (getProfitAnalysis cats exps sales f).netProfitMargin
        = (getProfitAnalysis cats exps sales f).netProfit
          / (getProfitAnalysis cats exps sales f).totalRevenue * 100)
    ∧ ((getProfitAnalysis cats exps sales f).totalRevenue = 0 →
      (getProfitAnalysis cats exps sales f).grossProfitMargin = 0
      ∧ (getProfitAnalysis cats exps sales f).netProfitMargin = 0) := by
  have hg : (getProfitAnalysis cats exps sales f).grossProfitMargin
      = if 0 < (getProfitAnalysis cats exps sales f).totalRevenue then
          (getProfitAnalysis cats exps sales f).totalGrossProfit
            / (getProfitAnalysis cats exps sales f).totalRevenue * 100
        else 0 := rfl
  have hn : (getProfitAnalysis cats exps sales f).netProfitMargin
      = if 0 < (getProfitAnalysis cats exps sales f).totalRevenue then
          (getProfitAnalysis cats exps sales f).netProfit
            / (getProfitAnalysis cats exps sales f).totalRevenue * 100
        else 0 := rfl
  have hrev : 0 ≤ (getProfitAnalysis cats exps sales f).totalRevenue := by
    have : (getProfitAnalysis cats exps sales f).totalRevenue
        = ((dateFiltered f (fun s => s.saleDate) sales).map
            (fun s => s.totalPrice)).sum := rfl
    rw [this, dateFiltered_eq_filter]
    apply List.sum_nonneg
    intro x hx
    rcases List.mem_map.mp hx with ⟨s, hs, rfl⟩
    exact h s (List.mem_of_mem_filter hs)
  constructor
  · intro hne
    have hpos : 0 < (getProfitAnalysis cats exps sales f).totalRevenue :=
      lt_of_le_of_ne hrev (Ne.symm hne)
    exact ⟨by rw [hg, if_pos hpos], by rw [hn, if_pos hpos]⟩
  · intro hzero
    have hnpos : ¬(0 < (getProfitAnalysis cats exps sales f).totalRevenue) := by
      rw [hzero]
      exact lt_irrefl 0
    exact ⟨by rw [hg, if_neg hnpos], by rw [hn, if_neg hnpos]⟩

/-- Witness for C2, at a store with no in-range sale (total revenue 0). -/
theorem profit_analysis_margins_witness :
    (∀ s ∈ ([⟨1, 2, 240, 40, 9⟩] : List Sale), 0 ≤ s.totalPrice)
    ∧ ((getProfitAnalysis [] [] [⟨1, 2, 240, 40, 9⟩] ⟨some 1, some 5⟩).totalRevenue = 0 →
        (getProfitAnalysis [] [] [⟨1, 2, 240, 40, 9⟩] ⟨some 1, some 5⟩).grossProfitMargin = 0
        ∧ (getProfitAnalysis [] [] [⟨1, 2, 240, 40, 9⟩] ⟨some 1, some 5⟩).netProfitMargin = 0) :=
  ⟨by decide,
   (profit_analysis_margins [] [] [⟨1, 2, 240, 40, 9⟩] ⟨some 1, some 5⟩
     (by decide)).2⟩

/-- C10: when every expense references an existing category of type
'operating' or 'cogs' (the schema's FOREIGN KEY and CHECK constraints), the
`total_expenses` field of `get_profit_analysis` agrees with the scalar
returned by `get_total_expenses` over the same range. -/
theorem total_expenses_agrees (cats : List ExpenseCategory)
    (exps : List Expense) (sales : List Sale) (f : DateFilter)
    (h : (cats.map (fun c => c.id)).Nodup)
    (hcat : ∀ e ∈ exps, ∃ c ∈ cats, c.id = e.categoryId ∧
        (c.categoryType = "operating" ∨ c.categoryType = "cogs")) :
    (getProfitAnalysis cats exps sales f).totalExpenses
      = getTotalExpenses exps f := by
  have hte : (getProfitAnalysis cats exps sales f).totalExpenses
      = summaryGet (expenseSummary cats exps f) "cogs"
        + summaryGet (expenseSummary cats exps f) "operating" := rfl
  rw [hte, summaryGet_expenseSummary cats exps f "cogs" h,
    summaryGet_expenseSummary cats exps f "operating" h]
  unfold getTotalExpenses
  rw [dateFiltered_eq_filter]
  rw [sum_map_filter_split exps (fun e => f.inRange e.expenseDate)
    (fun e => typeIs cats e "cogs") (fun e => e.amount)]
  congr 1
  apply congrArg
  apply congrArg
  apply List.filter_congr
  intro e he
  rcases hcat e he with ⟨c, hcmem, hcid, hctype⟩
  have hfind : cats.find? (fun cc => cc.id == e.categoryId) = some c :=
    find?_id cats h c hcmem e.categoryId hcid
  rcases hctype with hop | hcogs
  · simp [typeIs, catMatch, hfind, hop]
  · simp [typeIs, catMatch, hfind, hcogs]

/-- Witness for C10: one cogs and one operating expense, date filter active. -/
theorem total_expenses_agrees_witness :
    (([⟨1, "Cost of Goods Sold", "cogs"⟩, ⟨2, "Rent", "operating"⟩]
        : List ExpenseCategory).map (fun c => c.id)).Nodup
    ∧ (getProfitAnalysis
        [⟨1, "Cost of Goods Sold", "cogs"⟩, ⟨2, "Rent", "operating"⟩]
        [⟨1, 2000, 5⟩, ⟨2, 5000, 7⟩] [] ⟨some 4, none⟩).totalExpenses
      = getTotalExpenses [⟨1, 2000, 5⟩, ⟨2, 5000, 7⟩] ⟨some 4, none⟩ :=
  ⟨by decide,
   total_expenses_agrees
     [⟨1, "Cost of Goods Sold", "cogs"⟩, ⟨2, "Rent", "operating"⟩]
     [⟨1, 2000, 5⟩, ⟨2, 5000, 7⟩] [] ⟨some 4, none⟩ (by decide)
     (by decide)⟩

theorem mem_joinRow_fst {exps : List Expense} {c : ExpenseCategory}
    {r : ExpenseCategory × Option Expense} (h : r ∈ joinRow exps c) :
    r.1 = c := by
  unfold joinRow at h
  by_cases hemp : (exps.filter (fun e => e.categoryId == c.id)).isEmpty = true
  · rw [if_pos hemp] at h
    rw [List.mem_singleton.mp h]
  · rw [if_neg hemp] at h
    rcases List.mem_map.mp h with ⟨e, _, rfl⟩
    rfl

theorem joinRow_self_mem (exps : List Expense) (c : ExpenseCategory) :
    ∃ r ∈ joinRow exps c, r.1 = c := by
  unfold joinRow
  by_cases hemp : (exps.filter (fun e => e.categoryId == c.id)).isEmpty = true
  · rw [if_pos hemp]
    exact ⟨(c, none), List.mem_singleton.mpr rfl, rfl⟩
  · rw [if_neg hemp]
    have hne : exps.filter (fun e => e.categoryId == c.id) ≠ [] := by
      simpa using hemp
    rcases List.exists_mem_of_ne_nil _ hne with ⟨e, he⟩
    exact ⟨(c, some e), List.mem_map.mpr ⟨e, he, rfl⟩, rfl⟩

theorem mem_joinRow_some {exps : List Expense} {c : ExpenseCategory}
    {e : Expense} (he : e ∈ exps) (hid : e.categoryId = c.id) :
    (c, some e) ∈ joinRow exps c := by
  have hmem : e ∈ exps.filter (fun x => x.categoryId == c.id) :=
    List.mem_filter.mpr ⟨he, by simp [hid]⟩
  have hemp : ¬((exps.filter (fun x => x.categoryId == c.id)).isEmpty = true) := by
    simp only [List.isEmpty_iff]
    exact List.ne_nil_of_mem hmem
  unfold joinRow
  rw [if_neg hemp]
  exact List.mem_map.mpr ⟨e, hmem, rfl⟩

theorem mem_joinRow_inv {exps : List Expense} {c : ExpenseCategory}
    {r : ExpenseCategory × Option Expense} (h : r ∈ joinRow exps c) :
    r = (c, none) ∨ ∃ e, e ∈ exps ∧ e.categoryId = c.id ∧ r = (c, some e) := by
  unfold joinRow at h
  by_cases hemp : (exps.filter (fun e => e.categoryId == c.id)).isEmpty = true
  · rw [if_pos hemp] at h
    exact Or.inl (List.mem_singleton.mp h)
  · rw [if_neg hemp] at h
    rcases List.mem_map.mp h with ⟨e, hef, rfl⟩
    have hm := List.mem_filter.mp hef
    exact Or.inr ⟨e, hm.1, by simpa using hm.2, rfl⟩

/-- A category type occurs as a key of the expense summary iff some surviving
join row carries it. -/
theorem expenseSummary_key_mem (cats : List ExpenseCategory)
    (exps : List Expense) (f : DateFilter) (t : String) :
    (∃ p ∈ expenseSummary cats exps f, p.1 = t)
      ↔ ∃ r ∈ filteredJoin cats exps f, r.1.categoryType = t := by
  unfold expenseSummary
  constructor
  · rintro ⟨p, hp, hpt⟩
    rcases List.mem_map.mp hp with ⟨x, hx, rfl⟩
    rcases List.mem_map.mp (List.mem_dedup.mp hx) with ⟨r, hr, hrt⟩
    exact ⟨r, hr, by rw [hrt]; exact hpt⟩
  · rintro ⟨r, hr, hrt⟩
    refine ⟨(t, _), List.mem_map.mpr ⟨t, ?_, rfl⟩, rfl⟩
    exact List.mem_dedup.mpr (List.mem_map.mpr ⟨r, hr, hrt⟩)

/-- Counterexample to C5 as stated: with no date filter, a category type that
has a category but no expenses at all is PRESENT in the summary mapping with
value 0, not absent (the LEFT JOIN produces a NULL row that only an active
WHERE clause would remove). -/
theorem expense_summary_zero_type_present :
    expenseSummary [⟨1, "Rent", "operating"⟩] [] ⟨none, none⟩
      = [("operating", 0)] := by
  simp [expenseSummary, filteredJoin, joinRows, joinRow, rowAmount,
    DateFilter.isActive]

/-- C5 (amended): the summary maps each present category type to the sum of
the in-range expense amounts of that type; but a type with no matching
expenses is absent only when a date bound was supplied — with no date filter a
type is present (possibly with value 0) whenever some category carries it. -/
theorem expense_summary_by_type_semantics (cats : List ExpenseCategory)
    (exps : List Expense) (f : DateFilter) (t : String)
    (h : (cats.map (fun c => c.id)).Nodup) :
    summaryGet (expenseSummary cats exps f) t
      = ((exps.filter (fun e => f.inRange e.expenseDate && typeIs cats e t)).map
          (fun e => e.amount)).sum
    ∧ (f.isActive = true →
        ((∃ p ∈ expenseSummary cats exps f, p.1 = t)
          ↔ ∃ e ∈ exps, f.inRange e.expenseDate = true ∧ typeIs cats e t = true))
    ∧ (f.isActive = false →
        ((∃ p ∈ expenseSummary cats exps f, p.1 = t)
          ↔ ∃ c ∈ cats, c.categoryType = t)) := by
  refine ⟨summaryGet_expenseSummary cats exps f t h, ?_, ?_⟩
  · intro ha
    rw [expenseSummary_key_mem]
    unfold filteredJoin
    rw [if_pos ha]
    constructor
    · rintro ⟨r, hr, hrt⟩
      have hmem := (List.mem_filter.mp hr).1
      have hkeep := (List.mem_filter.mp hr).2
      rcases List.mem_flatMap.mp hmem with ⟨c, hc, hrc⟩
      rcases mem_joinRow_inv hrc with rfl | ⟨e, he, hid, rfl⟩
      · simp [rowKeep] at hkeep
      · refine ⟨e, he, by simpa [rowKeep] using hkeep, ?_⟩
        have hfind : cats.find? (fun cc => cc.id == e.categoryId) = some c :=
          find?_id cats h c hc e.categoryId hid.symm
        simp only [typeIs, catMatch, hfind]
        simpa using hrt
    · rintro ⟨e, he, hin, hty⟩
      simp only [typeIs, catMatch] at hty
      rcases hfind : cats.find? (fun cc => cc.id == e.categoryId) with _ | c
      · rw [hfind] at hty
        cases hty
      · rw [hfind] at hty
        have hc : c ∈ cats := List.mem_of_find?_eq_some hfind
        have hcid := List.find?_some hfind
        refine ⟨(c, some e), List.mem_filter.mpr
          ⟨List.mem_flatMap.mpr ⟨c, hc, mem_joinRow_some he (by simpa using
            (beq_iff_eq.mp hcid).symm)⟩, by simpa [rowKeep] using hin⟩,
          by simpa using hty⟩
  · intro ha
    rw [expenseSummary_key_mem]
    unfold filteredJoin
    rw [if_neg (by simp [ha])]
    constructor
    · rintro ⟨r, hr, hrt⟩
      rcases List.mem_flatMap.mp hr with ⟨c, hc, hrc⟩
      exact ⟨c, hc, by rw [← mem_joinRow_fst hrc]; exact hrt⟩
    · rintro ⟨c, hc, hct⟩
      rcases joinRow_self_mem exps c with ⟨r, hr, hfst⟩
      exact ⟨r, List.mem_flatMap.mpr ⟨c, hc, hr⟩, by rw [hfst, hct]⟩

/-- Witness for the amended C5, at a store with one operating category, no
expenses and an active date filter (where the type is indeed absent). -/
theorem expense_summary_by_type_semantics_witness :
    (([⟨1, "Rent", "operating"⟩] : List ExpenseCategory).map
      (fun c => c.id)).Nodup
    ∧ ((DateFilter.mk (some 1) none).isActive = true →
        ((∃ p ∈ expenseSummary [⟨1, "Rent", "operating"⟩] [] ⟨some 1, none⟩,
            p.1 = "operating")
          ↔ ∃ e ∈ ([] : List Expense),
              (DateFilter.mk (some 1) none).inRange e.expenseDate = true
              ∧ typeIs [⟨1, "Rent", "operating"⟩] e "operating" = true)) :=
  ⟨by decide,
   (expense_summary_by_type_semantics [⟨1, "Rent", "operating"⟩] []
     ⟨some 1, none⟩ "operating" (by decide)).2.1⟩

/-- A row of the result of `Database.get_expenses_by_category`. -/
structure CategoryRow where
  id : ℕ
  categoryName : String
  categoryType : String
  totalAmount : ℚ
  expenseCount : ℕ
  deriving Repr, DecidableEq

/-- The per-group rows of `get_expenses_by_category`: the LEFT JOIN with
optional date WHERE, grouped by `ec.id, ec.name`, with
`COALESCE(SUM(e.amount), 0)` and `COUNT(e.id)` per group (`COUNT(e.id)`
counts only rows whose expense side is non-NULL). -/
def categoryEntries (cats : List ExpenseCategory) (exps : List Expense)
    (f : DateFilter) : List CategoryRow :=
  let rows := filteredJoin cats exps f
  ((rows.map (fun r => (r.1.id, r.1.name))).dedup).map (fun k =>
    { id := k.1
      categoryName := k.2
      categoryType := ((rows.filter (fun r => r.1.id == k.1
          && r.1.name == k.2)).map (fun r => r.1.categoryType)).headD ""
      totalAmount := ((rows.filter (fun r => r.1.id == k.1
          && r.1.name == k.2)).map rowAmount).sum
      expenseCount := (rows.filter (fun r => r.1.id == k.1
          && r.1.name == k.2)).countP (fun r => r.2.isSome) })

/-- `Database.get_expenses_by_category`: the grouped rows ordered by total
amount descending (`ORDER BY total_amount DESC`). -/
def getExpensesByCategory (cats : List ExpenseCategory) (exps : List Expense)
    (f : DateFilter) : List CategoryRow :=
  (categoryEntries cats exps f).insertionSort
    (fun a b => b.totalAmount ≤ a.totalAmount)

theorem mem_joinRows_fst {cats : List ExpenseCategory} {exps : List Expense}
    {r : ExpenseCategory × Option Expense} (h : r ∈ joinRows cats exps) :
    r.1 ∈ cats := by
  rcases List.mem_flatMap.mp h with ⟨c, hc, hrc⟩
  rw [mem_joinRow_fst hrc]
  exact hc

theorem filter_comm {α : Type} (l : List α) (p q : α → Bool) :
    (l.filter p).filter q = (l.filter q).filter p := by
  rw [List.filter_filter, List.filter_filter]
  exact List.filter_congr (fun a _ => Bool.and_comm _ _)

/-- With duplicate-free category ids, restricting the join to one category's
id recovers exactly that category's join rows. -/
theorem joinRows_filter_id (cats : List ExpenseCategory) (exps : List Expense)
    (c : ExpenseCategory) (h : (cats.map (fun c => c.id)).Nodup)
    (hc : c ∈ cats) :
    (joinRows cats exps).filter (fun r => r.1.id == c.id) = joinRow exps c := by
  induction cats with
  | nil => cases hc
  | cons a cs ih =>
    have hsplit : joinRows (a :: cs) exps = joinRow exps a ++ joinRows cs exps := rfl
    rw [hsplit, List.filter_append]
    rw [List.map_cons, List.nodup_cons] at h
    rcases List.mem_cons.mp hc with rfl | hcs
    · have h1 : (joinRow exps c).filter (fun r => r.1.id == c.id)
          = joinRow exps c :=
        List.filter_eq_self.mpr (fun r hr => by rw [mem_joinRow_fst hr]; simp)
      have h2 : (joinRows cs exps).filter (fun r => r.1.id == c.id) = [] := by
        rw [List.filter_eq_nil_iff]
        intro r hr
        have hmem := mem_joinRows_fst hr
        simp only [beq_iff_eq]
        intro hid
        exact h.1 (List.mem_map.mpr ⟨r.1, hmem, hid⟩)
      rw [h1, h2, List.append_nil]
    · have h1 : (joinRow exps a).filter (fun r => r.1.id == c.id) = [] := by
        rw [List.filter_eq_nil_iff]
        intro r hr
        rw [mem_joinRow_fst hr]
        simp only [beq_iff_eq]
        intro hid
        exact h.1 (List.mem_map.mpr ⟨c, hcs, hid.symm⟩)
      rw [h1, ih h.2 hcs, List.nil_append]

/-- Sum of the amounts of one category's join rows surviving the date WHERE. -/
theorem sum_joinRow_keep (exps : List Expense) (c : ExpenseCategory)
    (f : DateFilter) :
    (((joinRow exps c).filter (rowKeep f)).map rowAmount).sum
      = (((exps.filter (fun e => e.categoryId == c.id)).filter
          (fun e => f.inRange e.expenseDate)).map (fun e => e.amount)).sum := by
  have hpred : (joinRow exps c).filter (rowKeep f)
      = (joinRow exps c).filter
          (rowPred (fun _ => true) (fun e => f.inRange e.expenseDate) false) := by
    apply List.filter_congr
    intro r _
    rcases r with ⟨c', _ | e⟩ <;> simp [rowPred, rowKeep]
  rw [hpred, sum_joinRow]
  simp

/-- Sum of the amounts of one category's join rows with no date WHERE. -/
theorem sum_joinRow_all (exps : List Expense) (c : ExpenseCategory) :
    ((joinRow exps c).map rowAmount).sum
      = ((exps.filter (fun e => e.categoryId == c.id)).map
          (fun e => e.amount)).sum := by
  have hself : joinRow exps c
      = (joinRow exps c).filter (rowPred (fun _ => true) (fun _ => true) true) := by
    rw [List.filter_eq_self.mpr]
    intro r _
    rcases r with ⟨c', _ | e⟩ <;> simp [rowPred]
  rw [hself, sum_joinRow]
  simp

/-- `COUNT(e.id)` over one category's join rows surviving the date WHERE. -/
theorem count_joinRow_keep (exps : List Expense) (c : ExpenseCategory)
    (f : DateFilter) :
    ((joinRow exps c).filter (rowKeep f)).countP (fun r => r.2.isSome)
      = ((exps.filter (fun e => e.categoryId == c.id)).filter
          (fun e => f.inRange e.expenseDate)).length := by
  unfold joinRow
  by_cases hemp : (exps.filter (fun e => e.categoryId == c.id)).isEmpty = true
  · have he : exps.filter (fun e => e.categoryId == c.id) = [] := by simpa using hemp
    rw [if_pos hemp, he]
    simp [rowKeep]
  · rw [if_neg hemp, List.filter_map]
    have hcomp : (rowKeep f ∘ fun e => (c, some e))
        = fun e => f.inRange e.expenseDate := by
      funext e
      simp [rowKeep, Function.comp]
    rw [hcomp, List.countP_map]
    have : ((fun r : ExpenseCategory × Option Expense => r.2.isSome)
        ∘ fun e => (c, some e)) = fun _ => true := by
      funext e
      simp [Function.comp]
    rw [this]
    simp [List.countP_true]

/-- `COUNT(e.id)` over one category's join rows with no date WHERE. -/
theorem count_joinRow_all (exps : List Expense) (c : ExpenseCategory) :
    (joinRow exps c).countP (fun r => r.2.isSome)
      = (exps.filter (fun e => e.categoryId == c.id)).length := by
  unfold joinRow
  by_cases hemp : (exps.filter (fun e => e.categoryId == c.id)).isEmpty = true
  · have he : exps.filter (fun e => e.categoryId == c.id) = [] := by simpa using hemp
    rw [if_pos hemp, he]
    simp
  · rw [if_neg hemp, List.countP_map]
    have : ((fun r : ExpenseCategory × Option Expense => r.2.isSome)
        ∘ fun e => (c, some e)) = fun _ => true := by
      funext e
      simp [Function.comp]
    rw [this]
    simp [List.countP_true]

/-- Counterexample to C4 as stated: with an active date filter, a category
with no expenses in range produces NO row at all — the WHERE clause on
`DATE(e.expense_date)` discards the NULL row of the LEFT JOIN, so the
claimed zero-total/zero-count entry is missing. -/
theorem expenses_by_category_drops_empty :
    getExpensesByCategory [⟨1, "Rent", "operating"⟩] [] ⟨some 0, none⟩
      = [] := by
  simp [getExpensesByCategory, categoryEntries, filteredJoin, joinRows, joinRow,
    rowKeep, DateFilter.isActive, List.insertionSort]

/-- Restricting the (optionally WHERE-filtered) join to one category id. -/
theorem filteredJoin_filter_id (cats : List ExpenseCategory)
    (exps : List Expense) (f : DateFilter) (c : ExpenseCategory)
    (h : (cats.map (fun c => c.id)).Nodup) (hc : c ∈ cats) :
    (filteredJoin cats exps f).filter (fun r => r.1.id == c.id)
      = if f.isActive then (joinRow exps c).filter (rowKeep f)
        else joinRow exps c := by
  unfold filteredJoin
  by_cases ha : f.isActive = true
  · rw [if_pos ha, if_pos ha, filter_comm, joinRows_filter_id cats exps c h hc]
  · rw [if_neg ha, if_neg ha, joinRows_filter_id cats exps c h hc]

theorem sum_group_c (exps : List Expense) (c : ExpenseCategory)
    (f : DateFilter) :
    ((if f.isActive then (joinRow exps c).filter (rowKeep f)
        else joinRow exps c).map rowAmount).sum
      = (((exps.filter (fun e => e.categoryId == c.id)).filter
          (fun e => f.inRange e.expenseDate)).map (fun e => e.amount)).sum := by
  by_cases ha : f.isActive = true
  · rw [if_pos ha, sum_joinRow_keep]
  · rw [if_neg ha, sum_joinRow_all]
    have hv : (exps.filter (fun e => e.categoryId == c.id)).filter
        (fun e => f.inRange e.expenseDate)
        = exps.filter (fun e => e.categoryId == c.id) :=
      List.filter_eq_self.mpr (fun e _ =>
        inRange_of_inactive f (by simpa using ha) e.expenseDate)
    rw [hv]

theorem count_group_c (exps : List Expense) (c : ExpenseCategory)
    (f : DateFilter) :
    (if f.isActive then (joinRow exps c).filter (rowKeep f)
        else joinRow exps c).countP (fun r => r.2.isSome)
      = ((exps.filter (fun e => e.categoryId == c.id)).filter
          (fun e => f.inRange e.expenseDate)).length := by
  by_cases ha : f.isActive = true
  · rw [if_pos ha, count_joinRow_keep]
  · rw [if_neg ha, count_joinRow_all]
    have hv : (exps.filter (fun e => e.categoryId == c.id)).filter
        (fun e => f.inRange e.expenseDate)
        = exps.filter (fun e => e.categoryId == c.id) :=
      List.filter_eq_self.mpr (fun e _ =>
        inRange_of_inactive f (by simpa using ha) e.expenseDate)
    rw [hv]

theorem mem_filteredJoin_fst {cats : List ExpenseCategory} {exps : List Expense}
    {f : DateFilter} {r : ExpenseCategory × Option Expense}
    (hr : r ∈ filteredJoin cats exps f) : r.1 ∈ cats := by
  unfold filteredJoin at hr
  by_cases ha : f.isActive = true
  · rw [if_pos ha] at hr
    exact mem_joinRows_fst (List.mem_filter.mp hr).1
  · rw [if_neg ha] at hr
    exact mem_joinRows_fst hr

/-- C4 (amended): `get_expenses_by_category` returns, for a category `c`, an
entry carrying `c`'s in-range total amount and expense count; but the entry
for `c` exists only when no date filter is supplied OR `c` has at least one
expense in range — with an active date filter, empty categories are dropped
(the WHERE clause removes the NULL row of the LEFT JOIN), contrary to the
claim's unconditional zero-entry. -/
theorem expenses_by_category_semantics (cats : List ExpenseCategory)
    (exps : List Expense) (f : DateFilter) (c : ExpenseCategory)
    (h : (cats.map (fun c => c.id)).Nodup) (hc : c ∈ cats) :
    ((∃ row ∈ getExpensesByCategory cats exps f, row.id = c.id)
      ↔ (f.isActive = false
          ∨ ∃ e ∈ exps, e.categoryId = c.id ∧ f.inRange e.expenseDate = true))
    ∧ ∀ row ∈ getExpensesByCategory cats exps f, row.id = c.id →
        row.categoryName = c.name
        ∧ row.totalAmount = (((exps.filter (fun e => e.categoryId == c.id)).filter
            (fun e => f.inRange e.expenseDate)).map (fun e => e.amount)).sum
        ∧ row.expenseCount = ((exps.filter (fun e => e.categoryId == c.id)).filter
            (fun e => f.inRange e.expenseDate)).length := by
  have hsort : ∀ row : CategoryRow,
      row ∈ getExpensesByCategory cats exps f
        ↔ row ∈ categoryEntries cats exps f := by
    intro row
    unfold getExpensesByCategory
    exact (List.perm_insertionSort _ _).mem_iff
  constructor
  · constructor
    · rintro ⟨row, hrow, hid⟩
      rw [hsort] at hrow
      unfold categoryEntries at hrow
      rcases List.mem_map.mp hrow with ⟨k, hk, rfl⟩
      rcases List.mem_map.mp (List.mem_dedup.mp hk) with ⟨r, hr, hkr⟩
      subst hkr
      by_cases ha : f.isActive = true
      · right
        have hr' := hr
        unfold filteredJoin at hr'
        rw [if_pos ha] at hr'
        have hmem := (List.mem_filter.mp hr').1
        have hkeep := (List.mem_filter.mp hr').2
        rcases List.mem_flatMap.mp hmem with ⟨c', hc', hrc'⟩
        rcases mem_joinRow_inv hrc' with rfl | ⟨e, he, heid, rfl⟩
        · simp [rowKeep] at hkeep
        · have hcc : c' = c := nodup_id_inj cats h c' c hc' hc hid
          exact ⟨e, he, by rw [heid, hcc], by simpa [rowKeep] using hkeep⟩
      · exact Or.inl (by simpa using ha)
    · intro hcase
      have hrow : ∃ r ∈ filteredJoin cats exps f, r.1 = c := by
        rcases hcase with ha | ⟨e, he, heid, hin⟩
        · rcases joinRow_self_mem exps c with ⟨r, hr0, hfst0⟩
          refine ⟨r, ?_, hfst0⟩
          unfold filteredJoin
          rw [if_neg (by simp [ha])]
          exact List.mem_flatMap.mpr ⟨c, hc, hr0⟩
        · have hjr : (c, some e) ∈ joinRows cats exps :=
            List.mem_flatMap.mpr ⟨c, hc, mem_joinRow_some he heid⟩
          refine ⟨(c, some e), ?_, rfl⟩
          unfold filteredJoin
          by_cases ha : f.isActive = true
          · rw [if_pos ha]
            exact List.mem_filter.mpr ⟨hjr, by simpa [rowKeep] using hin⟩
          · rw [if_neg ha]
            exact hjr
      rcases hrow with ⟨r, hrmem, hrfst⟩
      have hkey : (c.id, c.name)
          ∈ ((filteredJoin cats exps f).map (fun r => (r.1.id, r.1.name))).dedup :=
        List.mem_dedup.mpr (List.mem_map.mpr ⟨r, hrmem, by rw [hrfst]⟩)
      refine ⟨_, (hsort _).mpr (List.mem_map.mpr ⟨(c.id, c.name), hkey, rfl⟩), rfl⟩
  · intro row hrow hid
    rw [hsort] at hrow
    unfold categoryEntries at hrow
    rcases List.mem_map.mp hrow with ⟨k, hk, rfl⟩
    rcases List.mem_map.mp (List.mem_dedup.mp hk) with ⟨r, hr, hkr⟩
    subst hkr
    have hr1 : r.1 = c := nodup_id_inj cats h r.1 c (mem_filteredJoin_fst hr) hc hid
    have hgrp : (filteredJoin cats exps f).filter
        (fun x => x.1.id == r.1.id && x.1.name == r.1.name)
        = (filteredJoin cats exps f).filter (fun x => x.1.id == c.id) := by
      apply List.filter_congr
      intro x hx
      by_cases hxid : (x.1.id == c.id) = true
      · have hxc : x.1 = c := nodup_id_inj cats h x.1 c
          (mem_filteredJoin_fst hx) hc (by simpa using hxid)
        simp [hxc, hr1]
      · have hxid0 : (x.1.id == c.id) = false := by simpa using hxid
        have hxid1 : (x.1.id == r.1.id) = false := by rw [hr1]; exact hxid0
        simp [hxid0, hxid1]
    refine ⟨by rw [hr1], ?_, ?_⟩
    · show ((((filteredJoin cats exps f).filter
          (fun x => x.1.id == r.1.id && x.1.name == r.1.name))).map rowAmount).sum = _
      rw [hgrp, filteredJoin_filter_id cats exps f c h hc, sum_group_c]
    · show (((filteredJoin cats exps f).filter
          (fun x => x.1.id == r.1.id && x.1.name == r.1.name))).countP
            (fun x => x.2.isSome) = _
      rw [hgrp, filteredJoin_filter_id cats exps f c h hc, count_group_c]

/-- Witness for the amended C4: with no date filter, the empty category is
present (zero entry); its row for id 1 exists. -/
theorem expenses_by_category_semantics_witness :
    (([⟨1, "Rent", "operating"⟩] : List ExpenseCategory).map
      (fun c => c.id)).Nodup
    ∧ (⟨1, "Rent", "operating"⟩ : ExpenseCategory) ∈
        ([⟨1, "Rent", "operating"⟩] : List ExpenseCategory)
    ∧ ∃ row ∈ getExpensesByCategory [⟨1, "Rent", "operating"⟩] [] ⟨none, none⟩,
        row.id = 1 :=
  ⟨by decide, by decide,
   ((expenses_by_category_semantics [⟨1, "Rent", "operating"⟩] [] ⟨none, none⟩
     ⟨1, "Rent", "operating"⟩ (by decide) (by decide)).1).mpr (Or.inl rfl)⟩

/-- The inventory/sales portion of the store. -/
structure StoreState where
  products : List Product
  sales : List Sale
  deriving Repr, DecidableEq

/-- `Database.record_sale`: inside one transaction, INSERT the sale row and
UPDATE the product quantity by `quantity = quantity - ?`, then COMMIT; the
INSERT's FOREIGN KEY constraint fails when no product has the given id, in
which case the transaction is rolled back (error, no state change).  No stock
check is performed here. -/
def recordSale (st : StoreState) (pid : ℕ) (qtySold : ℤ)
    (totalPrice profit : ℚ) (saleDate : ℤ) : Except String StoreState :=
  if st.products.any (fun p => p.id == pid) then
    Except.ok
      { products := st.products.map (fun p =>
          if p.id == pid then { p with quantity := p.quantity - qtySold } else p)
        sales := st.sales
          ++ [⟨pid, qtySold, totalPrice, profit, saleDate⟩] }
  else Except.error "FOREIGN KEY constraint failed"

/-- `sell_product` (src/app.py): validate the quantity, look the product up,
reject when the product is missing or stock is insufficient, then compute
`total_price = selling_price × quantity` and
`profit = (selling_price − buying_price) × quantity` and call `record_sale`. -/
def sellProduct (st : StoreState) (pid : ℕ) (qty : ℤ) (saleDate : ℤ) :
    Except String StoreState :=
  if qty ≤ 0 then Except.error "Quantity must be greater than 0"
  else
    match st.products.find? (fun p => p.id == pid) with
    | none => Except.error "Product not found"
    | some product =>
      if product.quantity < qty then Except.error "Insufficient stock"
      else recordSale st pid qty (product.sellingPrice * (qty : ℚ))
        ((product.sellingPrice - product.buyingPrice) * (qty : ℚ)) saleDate

/-- Counterexample to C3 as stated: `Database.record_sale` performs no stock
check — recording a sale of 2 units of a product holding only 1 succeeds
(no failure, no rollback) and drives the stored quantity to −1. -/
theorem record_sale_ignores_stock :
    recordSale ⟨[⟨1, "Soda", 100, 120, 1⟩], []⟩ 1 2 240 40 0
      = Except.ok ⟨[⟨1, "Soda", 100, 120, -1⟩], [⟨1, 2, 240, 40, 0⟩]⟩ := by
  rfl

/-- C3 (amended): `record_sale` is all-or-nothing: when the product exists it
both appends the Sale row and decrements that product's quantity, and when
the product does not exist it fails with no state change (FOREIGN KEY
rollback); but `record_sale` itself never checks stock — the
stock-insufficiency rejection happens in its caller `sell_product`, before
any mutation, leaving the store unchanged. -/
theorem record_sale_atomic (st : StoreState) (pid : ℕ) (qtySold : ℤ)
    (tp pr : ℚ) (d : ℤ) (p : Product) :
    (st.products.any (fun x => x.id == pid) = true →
      recordSale st pid qtySold tp pr d = Except.ok
        { products := st.products.map (fun x =>
            if x.id == pid then { x with quantity := x.quantity - qtySold } else x)
          sales := st.sales ++ [⟨pid, qtySold, tp, pr, d⟩] })
    ∧ (st.products.any (fun x => x.id == pid) = false →
      recordSale st pid qtySold tp pr d
        = Except.error "FOREIGN KEY constraint failed")
    ∧ (0 < qtySold → st.products.find? (fun x => x.id == pid) = some p →
        p.quantity < qtySold →
        sellProduct st pid qtySold d = Except.error "Insufficient stock") := by
  refine ⟨?_, ?_, ?_⟩
  · intro hany
    unfold recordSale
    rw [if_pos hany]
  · intro hany
    unfold recordSale
    rw [if_neg (by simp [hany])]
  · intro hq hfind hlt
    unfold sellProduct
    rw [if_neg (not_le.mpr hq)]
    simp only [hfind]
    rw [if_pos hlt]

/-- Witness for the amended C3: a nonexistent product id fails, and the sell
flow rejects an over-quantity request. -/
theorem record_sale_atomic_witness :
    recordSale ⟨[⟨1, "Soda", 100, 120, 5⟩], []⟩ 2 1 120 20 0
      = Except.error "FOREIGN KEY constraint failed"
    ∧ sellProduct ⟨[⟨1, "Soda", 100, 120, 5⟩], []⟩ 1 9 0
      = Except.error "Insufficient stock" :=
  ⟨(record_sale_atomic ⟨[⟨1, "Soda", 100, 120, 5⟩], []⟩ 2 1 120 20 0
      ⟨1, "Soda", 100, 120, 5⟩).2.1 (by decide),
   (record_sale_atomic ⟨[⟨1, "Soda", 100, 120, 5⟩], []⟩ 1 9 120 20 0
      ⟨1, "Soda", 100, 120, 5⟩).2.2 (by decide) (by decide) (by decide)⟩

/-- Looking the product up after the sale's quantity update. -/
theorem find?_map_update (l : List Product) (pid : ℕ) (qty : ℤ) (p : Product)
    (h : l.find? (fun x => x.id == pid) = some p) :
    (l.map (fun x =>
        if x.id == pid then { x with quantity := x.quantity - qty } else x)).find?
        (fun x => x.id == pid)
      = some { p with quantity := p.quantity - qty } := by
  induction l with
  | nil => simp at h
  | cons a l ih =>
    by_cases ha : (a.id == pid) = true
    · simp only [List.find?_cons, ha] at h
      have hap : a = p := by injection h
      subst hap
      rw [List.map_cons, if_pos ha]
      have hup : (({ a with quantity := a.quantity - qty } : Product).id == pid)
          = true := ha
      simp only [List.find?_cons, hup]
    · have ha0 : (a.id == pid) = false := by simpa using ha
      simp only [List.find?_cons, ha0] at h
      rw [List.map_cons, if_neg (by simp [ha0])]
      simp only [List.find?_cons, ha0]
      exact ih h

/-- C7: a successful sale of `qty` units of a product with buying price `b`,
selling price `s` and stock `n ≥ qty > 0` records
`total_price = s × qty` and `profit = (s − b) × qty` from the product's
prices at sale time, and leaves the product with quantity `n − qty`. -/
theorem sell_product_arithmetic (st : StoreState) (pid : ℕ) (qty : ℤ)
    (d : ℤ) (p : Product)
    (hfind : st.products.find? (fun x => x.id == pid) = some p)
    (hq : 0 < qty) (hstock : qty ≤ p.quantity) :
    ∃ st', sellProduct st pid qty d = Except.ok st'
      ∧ st'.sales = st.sales ++ [⟨pid, qty, p.sellingPrice * (qty : ℚ),
          (p.sellingPrice - p.buyingPrice) * (qty : ℚ), d⟩]
      ∧ st'.products.find? (fun x => x.id == pid)
          = some { p with quantity := p.quantity - qty } := by
  have hps := List.find?_some hfind
  have hany : st.products.any (fun x => x.id == pid) = true := by
    rw [List.any_eq_true]
    exact ⟨p, List.mem_of_find?_eq_some hfind, hps⟩
  have hsell : sellProduct st pid qty d = Except.ok
      { products := st.products.map (fun x =>
          if x.id == pid then { x with quantity := x.quantity - qty } else x)
        sales := st.sales ++ [⟨pid, qty, p.sellingPrice * (qty : ℚ),
          (p.sellingPrice - p.buyingPrice) * (qty : ℚ), d⟩] } := by
    unfold sellProduct
    rw [if_neg (not_le.mpr hq)]
    simp only [hfind]
    rw [if_neg (not_lt.mpr hstock)]
    unfold recordSale
    rw [if_pos hany]
  exact ⟨_, hsell, rfl, find?_map_update st.products pid qty p hfind⟩

/-- Witness for C7: the spec's concrete scenario — buy 100, sell 120, stock
50, sell 10 units → total 1200, profit 200, remaining quantity 40. -/
theorem sell_product_arithmetic_witness :
    (([⟨1, "Item", 100, 120, 50⟩] : List Product).find?
        (fun x => x.id == 1) = some ⟨1, "Item", 100, 120, 50⟩)
    ∧ ∃ st', sellProduct ⟨[⟨1, "Item", 100, 120, 50⟩], []⟩ 1 10 0
        = Except.ok st'
      ∧ st'.sales = [⟨1, 10, 1200, 200, 0⟩]
      ∧ st'.products.find? (fun x => x.id == 1)
          = some ⟨1, "Item", 100, 120, 40⟩ := by
  refine ⟨by decide, ?_⟩
  rcases sell_product_arithmetic ⟨[⟨1, "Item", 100, 120, 50⟩], []⟩ 1 10 0
      ⟨1, "Item", 100, 120, 50⟩ (by decide) (by decide) (by decide) with
    ⟨st', h1, h2, h3⟩
  refine ⟨st', h1, ?_, ?_⟩
  · rw [h2]
    norm_num
  · rw [h3]
    norm_num

/-- `SELECT COUNT(*) FROM users WHERE role = 'admin'`. -/
def adminCount (users : List UserRow) : ℕ :=
  users.countP (fun u => u.role == "admin")

/-- `Database.delete_user`: look the user up; when it is an admin and at most
one admin exists, raise (leaving the table unchanged); otherwise DELETE the
row with that id. -/
def deleteUser (users : List UserRow) (uid : ℕ) :
    Except String (List UserRow) :=
  if (match users.find? (fun u => u.id == uid) with
      | some u => u.role == "admin" && decide (adminCount users ≤ 1)
      | none => false) then
    Except.error "Cannot delete the last admin user"
  else Except.ok (users.filter (fun u => !(u.id == uid)))

/-- `Database.update_user_role`: when demoting (new role ≠ 'admin') a target
that is an admin while at most one admin exists, raise; otherwise UPDATE the
row's role. -/
def updateUserRole (users : List UserRow) (uid : ℕ) (newRole : String) :
    Except String (List UserRow) :=
  if (if newRole != "admin" then
        match users.find? (fun u => u.id == uid) with
        | some u => u.role == "admin" && decide (adminCount users ≤ 1)
        | none => false
      else false) then
    Except.error "Cannot change the last admin to employee"
  else Except.ok (users.map (fun u =>
    if u.id == uid then { u with role := newRole } else u))

theorem users_id_inj (users : List UserRow)
    (h : (users.map (fun u => u.id)).Nodup) (a b : UserRow)
    (ha : a ∈ users) (hb : b ∈ users) (hid : a.id = b.id) : a = b := by
  induction users with
  | nil => cases ha
  | cons c cs ih =>
    rw [List.map_cons, List.nodup_cons] at h
    rcases List.mem_cons.mp ha with rfl | ha' <;>
      rcases List.mem_cons.mp hb with h2 | hb'
    · rw [h2]
    · exact absurd (List.mem_map.mpr ⟨b, hb', hid.symm⟩) h.1
    · exact absurd (List.mem_map.mpr ⟨a, ha', by rw [hid, h2]⟩) h.1
    · exact ih h.2 ha' hb'

theorem countP_id_le_one (users : List UserRow)
    (h : (users.map (fun u => u.id)).Nodup) (uid : ℕ) :
    users.countP (fun u => u.id == uid) ≤ 1 := by
  induction users with
  | nil => simp
  | cons a l ih =>
    rw [List.map_cons, List.nodup_cons] at h
    rw [List.countP_cons]
    by_cases ha : (a.id == uid) = true
    · have hz : l.countP (fun u => u.id == uid) = 0 := by
        rw [List.countP_eq_zero]
        intro x hx
        simp only [beq_iff_eq]
        intro hxe
        exact h.1 (List.mem_map.mpr ⟨x, hx, by
          rw [hxe]
          exact (beq_iff_eq.mp ha).symm⟩)
      rw [hz]
      simp [ha]
    · have ha0 : (a.id == uid) = false := by simpa using ha
      rw [ha0]
      simpa using ih h.2

/-- Whenever the admin-count guard lets a deletion or demotion through, a
second admin with a different id exists. -/
theorem exists_other_admin (users : List UserRow) (uid : ℕ)
    (h : (users.map (fun u => u.id)).Nodup) (hpos : 0 < adminCount users)
    (hcase : users.find? (fun u => u.id == uid) = none
      ∨ (∃ v, users.find? (fun u => u.id == uid) = some v ∧ ¬(v.role = "admin"))
      ∨ 2 ≤ adminCount users) :
    ∃ a ∈ users, a.role = "admin" ∧ (a.id == uid) = false := by
  rcases hcase with hnone | ⟨v, hv, hvrole⟩ | htwo
  · rcases List.countP_pos_iff.mp hpos with ⟨a, ha, hrole⟩
    refine ⟨a, ha, by simpa using hrole, ?_⟩
    have := List.find?_eq_none.mp hnone a ha
    simpa using this
  · rcases List.countP_pos_iff.mp hpos with ⟨a, ha, hrole⟩
    have hrole' : a.role = "admin" := by simpa using hrole
    refine ⟨a, ha, hrole', ?_⟩
    have hvmem : v ∈ users := List.mem_of_find?_eq_some hv
    have hvid := List.find?_some hv
    simp only [beq_eq_false_iff_ne, ne_eq]
    intro haid
    have hav : a = v := users_id_inj users h a v ha hvmem
      (by rw [haid]; exact (beq_iff_eq.mp hvid).symm)
    rw [hav] at hrole'
    exact hvrole hrole'
  · by_contra hno
    push_neg at hno
    have hmono : users.countP (fun u => u.role == "admin")
        ≤ users.countP (fun u => u.id == uid) := by
      apply List.countP_mono_left
      intro a ha hrole
      rcases hno a ha (by simpa using hrole) with hne
      simpa using hne
    have := countP_id_le_one users h uid
    unfold adminCount at htwo
    omega

/-- The updated user table still contains an admin whenever some admin's id
differs from the updated id. -/
theorem adminCount_map_pos (users : List UserRow) (uid : ℕ) (newRole : String)
    (hex : ∃ a ∈ users, a.role = "admin" ∧ (a.id == uid) = false) :
    0 < adminCount (users.map (fun u =>
      if u.id == uid then { u with role := newRole } else u)) := by
  rcases hex with ⟨a, ha, hrole, hid⟩
  apply List.countP_pos_iff.mpr
  refine ⟨a, ?_, by simpa using hrole⟩
  have : (if a.id == uid then { a with role := newRole } else a) = a := by
    rw [if_neg (by simp [hid])]
  rw [← this]
  exact List.mem_map.mpr ⟨a, ha, rfl⟩

theorem adminCount_filter_pos (users : List UserRow) (uid : ℕ)
    (hex : ∃ a ∈ users, a.role = "admin" ∧ (a.id == uid) = false) :
    0 < adminCount (users.filter (fun u => !(u.id == uid))) := by
  rcases hex with ⟨a, ha, hrole, hid⟩
  apply List.countP_pos_iff.mpr
  exact ⟨a, List.mem_filter.mpr ⟨ha, by simp [hid]⟩, by simpa using hrole⟩

/-- The case split behind a successful `delete_user`. -/
theorem deleteUser_ok_inv (users : List UserRow) (uid : ℕ)
    (users' : List UserRow)
    (hok : deleteUser users uid = Except.ok users') :
    users' = users.filter (fun u => !(u.id == uid))
    ∧ (users.find? (fun u => u.id == uid) = none
      ∨ (∃ v, users.find? (fun u => u.id == uid) = some v ∧ ¬(v.role = "admin"))
      ∨ 2 ≤ adminCount users) := by
  unfold deleteUser at hok
  rcases hfind : users.find? (fun u => u.id == uid) with _ | v
  · rw [hfind] at hok
    simp only [Bool.false_eq_true, if_false] at hok
    injection hok with hok'
    exact ⟨hok'.symm, Or.inl hfind⟩
  · rw [hfind] at hok
    by_cases hb : (v.role == "admin" && decide (adminCount users ≤ 1)) = true
    · rw [if_pos hb] at hok
      cases hok
    · rw [if_neg hb] at hok
      injection hok with hok'
      refine ⟨hok'.symm, Or.inr ?_⟩
      simp only [Bool.and_eq_true, beq_iff_eq, decide_eq_true_eq, not_and,
        not_le] at hb
      by_cases hv : v.role = "admin"
      · exact Or.inr (hb hv)
      · exact Or.inl ⟨v, hfind, hv⟩

/-- The case split behind a successful `update_user_role`. -/
theorem updateUserRole_ok_inv (users : List UserRow) (uid : ℕ)
    (newRole : String) (users' : List UserRow)
    (hok : updateUserRole users uid newRole = Except.ok users') :
    users' = users.map (fun u =>
        if u.id == uid then { u with role := newRole } else u)
    ∧ (newRole = "admin"
      ∨ users.find? (fun u => u.id == uid) = none
      ∨ (∃ v, users.find? (fun u => u.id == uid) = some v ∧ ¬(v.role = "admin"))
      ∨ 2 ≤ adminCount users) := by
  unfold updateUserRole at hok
  by_cases hnew : newRole = "admin"
  · rw [if_neg (by simp [hnew])] at hok
    injection hok with hok'
    exact ⟨hok'.symm, Or.inl hnew⟩
  · have hbne : (newRole != "admin") = true := by simpa using hnew
    rw [hbne] at hok
    simp only [if_true] at hok
    rcases hfind : users.find? (fun u => u.id == uid) with _ | v
    · rw [hfind] at hok
      simp only [Bool.false_eq_true, if_false] at hok
      injection hok with hok'
      exact ⟨hok'.symm, Or.inr (Or.inl hfind)⟩
    · rw [hfind] at hok
      by_cases hb : (v.role == "admin" && decide (adminCount users ≤ 1)) = true
      · rw [if_pos hb] at hok
        cases hok
      · rw [if_neg hb] at hok
        injection hok with hok'
        refine ⟨hok'.symm, Or.inr (Or.inr ?_)⟩
        simp only [Bool.and_eq_true, beq_iff_eq, decide_eq_true_eq, not_and,
          not_le] at hb
        by_cases hv : v.role = "admin"
        · exact Or.inr (hb hv)
        · exact Or.inl ⟨v, hfind, hv⟩

/-- C8: with distinct user ids (the PRIMARY KEY), `delete_user` and
`update_user_role` preserve the existence of an admin; deleting the sole
remaining admin fails with an error (and, the operation having raised before
any DELETE, the table is unchanged), and demoting the sole remaining admin to
a non-admin role likewise fails. -/
theorem admin_invariant (users : List UserRow) (uid : ℕ) (newRole : String)
    (u : UserRow) (h : (users.map (fun x => x.id)).Nodup) :
    (∀ users', deleteUser users uid = Except.ok users' →
      0 < adminCount users → 0 < adminCount users')
    ∧ (∀ users', updateUserRole users uid newRole = Except.ok users' →
      0 < adminCount users → 0 < adminCount users')
    ∧ (users.find? (fun x => x.id == uid) = some u → u.role = "admin" →
        adminCount users = 1 →
        deleteUser users uid = Except.error "Cannot delete the last admin user")
    ∧ (users.find? (fun x => x.id == uid) = some u → u.role = "admin" →
        adminCount users = 1 → newRole ≠ "admin" →
        updateUserRole users uid newRole
          = Except.error "Cannot change the last admin to employee") := by
  refine ⟨?_, ?_, ?_, ?_⟩
  · intro users' hok hpos
    rcases deleteUser_ok_inv users uid users' hok with ⟨rfl, hcase⟩
    exact adminCount_filter_pos users uid
      (exists_other_admin users uid h hpos hcase)
  · intro users' hok hpos
    rcases updateUserRole_ok_inv users uid newRole users' hok with ⟨rfl, hcase⟩
    rcases hcase with hnew | hcase
    · rcases List.countP_pos_iff.mp hpos with ⟨a, ha, hrole⟩
      apply List.countP_pos_iff.mpr
      refine ⟨if a.id == uid then { a with role := newRole } else a,
        List.mem_map.mpr ⟨a, ha, rfl⟩, ?_⟩
      by_cases hid : (a.id == uid) = true
      · simp [hid, hnew]
      · simp only [Bool.not_eq_true] at hid
        simp [hid]
        simpa using hrole
    · exact adminCount_map_pos users uid newRole
        (exists_other_admin users uid h hpos hcase)
  · intro hfind hrole hcount
    unfold deleteUser
    rw [hfind]
    rw [if_pos (by simp [hrole, hcount])]
  · intro hfind hrole hcount hnew
    unfold updateUserRole
    have hbne : (newRole != "admin") = true := by simpa using hnew
    rw [hbne]
    simp only [if_true]
    rw [hfind]
    rw [if_pos (by simp [hrole, hcount])]

/-- Witness for C8, on a table with one admin and one employee: deleting the
employee keeps an admin, and deleting or demoting the sole admin errors. -/
theorem admin_invariant_witness :
    (0 < adminCount [⟨1, "admin", "admin"⟩])
    ∧ deleteUser [⟨1, "admin", "admin"⟩, ⟨2, "bob", "employee"⟩] 1
        = Except.error "Cannot delete the last admin user"
    ∧ updateUserRole [⟨1, "admin", "admin"⟩, ⟨2, "bob", "employee"⟩] 1 "employee"
        = Except.error "Cannot change the last admin to employee" := by
  have hthm := admin_invariant
    [⟨1, "admin", "admin"⟩, ⟨2, "bob", "employee"⟩] 1 "employee"
    ⟨1, "admin", "admin"⟩ (by decide)
  have hthm2 := admin_invariant
    [⟨1, "admin", "admin"⟩, ⟨2, "bob", "employee"⟩] 2 "employee"
    ⟨1, "admin", "admin"⟩ (by decide)
  refine ⟨?_, hthm.2.2.1 (by decide) rfl (by decide),
    hthm.2.2.2 (by decide) rfl (by decide) (by decide)⟩
  exact hthm2.1 [⟨1, "admin", "admin"⟩] (by rfl) (by decide)

/-- The growth-rate computation of `admin_reports` (src/app.py): when the
daily trend series is nonempty and has at least two points, compare the first
and the last day's revenue, guarding a non-positive first-day revenue with 0;
otherwise 0. -/
def growthRate (trend : List ℚ) : ℚ :=
  if trend ≠ [] ∧ 2 ≤ trend.length then
    if 0 < trend.headD 0 then
      (trend.getLastD 0 - trend.headD 0) / trend.headD 0 * 100
    else 0
  else 0

/-- C9: the reports growth rate is
`(last − first) / first × 100` exactly when the series has ≥ 2 points and the
first day's revenue is strictly positive, and 0 in every other case. -/
theorem growth_rate_formula (trend : List ℚ) :
    (2 ≤ trend.length → 0 < trend.headD 0 →
      growthRate trend
        = (trend.getLastD 0 - trend.headD 0) / trend.headD 0 * 100)
    ∧ (trend.length < 2 → growthRate trend = 0)
    ∧ (trend.headD 0 ≤ 0 → growthRate trend = 0) := by
  refine ⟨?_, ?_, ?_⟩
  · intro h2 hpos
    have hne : trend ≠ [] := by
      intro hnil
      rw [hnil] at h2
      simp at h2
    unfold growthRate
    rw [if_pos ⟨hne, h2⟩, if_pos hpos]
  · intro hlt
    unfold growthRate
    rw [if_neg]
    intro hcon
    omega
  · intro hle
    unfold growthRate
    by_cases hc : trend ≠ [] ∧ 2 ≤ trend.length
    · rw [if_pos hc, if_neg (not_lt.mpr hle)]
    · rw [if_neg hc]

/-- Witness for C9: the series `[100, 150]` grows by the ratio formula. -/
theorem growth_rate_formula_witness :
    (2 ≤ ([100, 150] : List ℚ).length)
    ∧ (0 < ([100, 150] : List ℚ).headD 0)
    ∧ growthRate [100, 150]
        = (([100, 150] : List ℚ).getLastD 0 - ([100, 150] : List ℚ).headD 0)
          / ([100, 150] : List ℚ).headD 0 * 100 :=
  ⟨by decide, by norm_num,
   (growth_rate_formula [100, 150]).1 (by decide) (by norm_num)⟩

/-- `Database.get_daily_profit_trend`: the sales with
`sale_date >= DATE('now', '-days days')` grouped by calendar date with
per-date revenue and gross-profit sums, ordered by date ascending; dates with
no sales yield no row.  `today` stands for `DATE('now')`. -/
def dailyProfitTrend (sales : List Sale) (today : ℤ) (days : ℤ) :
    List (ℤ × ℚ × ℚ) :=
  ((((sales.filter (fun s => decide (today - days ≤ s.saleDate))).map
      (fun s => s.saleDate)).dedup).insertionSort (fun a b => a ≤ b)).map
    (fun d =>
      (d,
       (((sales.filter (fun s => decide (today - days ≤ s.saleDate))).filter
          (fun s => s.saleDate == d)).map (fun s => s.totalPrice)).sum,
       (((sales.filter (fun s => decide (today - days ≤ s.saleDate))).filter
          (fun s => s.saleDate == d)).map (fun s => s.profit)).sum))

theorem window_filter_eq (sales : List Sale) (today days d : ℤ)
    (hd : today - days ≤ d) :
    (sales.filter (fun s => decide (today - days ≤ s.saleDate))).filter
        (fun s => s.saleDate == d)
      = sales.filter (fun s => s.saleDate == d) := by
  rw [List.filter_filter]
  apply List.filter_congr
  intro s _
  by_cases hs : (s.saleDate == d) = true
  · have : s.saleDate = d := by simpa using hs
    simp [hs, this, hd]
  · have hs0 : (s.saleDate == d) = false := by simpa using hs
    simp [hs0]

/-- C6: over a trailing window (no future-dated sales, as `sale_date` is set
to the insertion time), the daily trend lists strictly increasing dates, each
listed date has at least one sale in the window (no zero-filling), every
window date with a sale is listed, and each row carries that date's total
revenue and total gross profit. -/
theorem daily_profit_trend_semantics (sales : List Sale) (today days : ℤ)
    (hdays : 0 < days) (htoday : ∀ s ∈ sales, s.saleDate ≤ today) :
    List.Pairwise (· < ·)
      ((dailyProfitTrend sales today days).map (fun x => x.1))
    ∧ (∀ x ∈ dailyProfitTrend sales today days,
        (∃ s ∈ sales, s.saleDate = x.1)
        ∧ today - days ≤ x.1 ∧ x.1 ≤ today
        ∧ x.2.1 = ((sales.filter (fun s => s.saleDate == x.1)).map
            (fun s => s.totalPrice)).sum
        ∧ x.2.2 = ((sales.filter (fun s => s.saleDate == x.1)).map
            (fun s => s.profit)).sum)
    ∧ (∀ d : ℤ, today - days ≤ d → (∃ s ∈ sales, s.saleDate = d) →
        ∃ r p, (d, r, p) ∈ dailyProfitTrend sales today days) := by
  have hperm := List.perm_insertionSort (fun a b : ℤ => a ≤ b)
    (((sales.filter (fun s => decide (today - days ≤ s.saleDate))).map
      (fun s => s.saleDate)).dedup)
  refine ⟨?_, ?_, ?_⟩
  · have hfst : (dailyProfitTrend sales today days).map (fun x => x.1)
        = (((sales.filter (fun s => decide (today - days ≤ s.saleDate))).map
            (fun s => s.saleDate)).dedup).insertionSort (fun a b => a ≤ b) := by
      unfold dailyProfitTrend
      rw [List.map_map]
      exact List.map_id _
    rw [hfst]
    have hle : List.Pairwise (fun a b : ℤ => a ≤ b)
        ((((sales.filter (fun s => decide (today - days ≤ s.saleDate))).map
          (fun s => s.saleDate)).dedup).insertionSort (fun a b => a ≤ b)) :=
      List.sorted_insertionSort _ _
    have hnd : ((((sales.filter (fun s => decide (today - days ≤ s.saleDate))).map
        (fun s => s.saleDate)).dedup).insertionSort (fun a b => a ≤ b)).Nodup :=
      hperm.nodup_iff.mpr (List.nodup_dedup _)
    exact (hle.and hnd).imp (fun hab => lt_of_le_of_ne hab.1 hab.2)
  · intro x hx
    unfold dailyProfitTrend at hx
    rcases List.mem_map.mp hx with ⟨d, hd, rfl⟩
    have hd' : d ∈ ((sales.filter
        (fun s => decide (today - days ≤ s.saleDate))).map
          (fun s => s.saleDate)).dedup := hperm.mem_iff.mp hd
    rcases List.mem_map.mp (List.mem_dedup.mp hd') with ⟨s, hs, rfl⟩
    have hsmem := List.mem_filter.mp hs
    have hwin : today - days ≤ s.saleDate := by simpa using hsmem.2
    refine ⟨⟨s, hsmem.1, rfl⟩, hwin, htoday s hsmem.1, ?_, ?_⟩
    · show (((sales.filter (fun s' => decide (today - days ≤ s'.saleDate))).filter
          (fun s' => s'.saleDate == s.saleDate)).map (fun s' => s'.totalPrice)).sum = _
      rw [window_filter_eq sales today days s.saleDate hwin]
    · show (((sales.filter (fun s' => decide (today - days ≤ s'.saleDate))).filter
          (fun s' => s'.saleDate == s.saleDate)).map (fun s' => s'.profit)).sum = _
      rw [window_filter_eq sales today days s.saleDate hwin]
  · intro d hd ⟨s, hs, hsd⟩
    have hsin : s ∈ sales.filter (fun s' => decide (today - days ≤ s'.saleDate)) :=
      List.mem_filter.mpr ⟨hs, by simpa using (hsd ▸ hd : today - days ≤ s.saleDate)⟩
    have hdmem : d ∈ ((sales.filter
        (fun s' => decide (today - days ≤ s'.saleDate))).map
          (fun s' => s'.saleDate)).dedup :=
      List.mem_dedup.mpr (List.mem_map.mpr ⟨s, hsin, hsd⟩)
    have hdsorted := hperm.mem_iff.mpr hdmem
    exact ⟨_, _, List.mem_map.mpr ⟨d, hdsorted, rfl⟩⟩

/-- Witness for C6: two sales on dates 8 and 9, today = 10, a 30-day window:
date 9 appears in the trend. -/
theorem daily_profit_trend_semantics_witness :
    (0 < (30 : ℤ))
    ∧ (∀ s ∈ ([⟨1, 2, 240, 40, 9⟩, ⟨1, 1, 120, 20, 8⟩] : List Sale),
        s.saleDate ≤ 10)
    ∧ ∃ r p, ((9 : ℤ), r, p)
        ∈ dailyProfitTrend [⟨1, 2, 240, 40, 9⟩, ⟨1, 1, 120, 20, 8⟩] 10 30 :=
  ⟨by decide, by decide,
   (daily_profit_trend_semantics [⟨1, 2, 240, 40, 9⟩, ⟨1, 1, 120, 20, 8⟩] 10 30
     (by decide) (by decide)).2.2 9 (by decide)
     ⟨⟨1, 2, 240, 40, 9⟩, by decide, rfl⟩⟩

end ShopTracker
